import Mathlib

/-!
Verification of the concurrent ingestion pipeline of `make.py` (crocdb-db).

The development shallowly embeds the pipeline code:

* `monitorStep` — one iteration of `monitor_worker` (rates, trend, idle
  suppression).  Wall-clock readings (Python floats) are modelled as
  rationals; counter/queue readings taken inside the iteration are passed
  in as an observation record.
* `writerLoop` / `writerRun` — the event trace of `db_writer_worker`
  driven by a schedule of `get` outcomes (timeout / item / loop-condition
  false), recording `init_database`, `insert_entry`, the written-counter
  increment, `task_done`, periodic `[DB]` reports and `close_database`.
* `processSources` / `makeRun` — the sequential orchestration of
  `process_sources` and `make`: registry lookups in `SCRAPERS`/`PARSERS`,
  scraping and the parser chain (collaborator behaviour abstracted as
  total functions), the enqueue loop, and the start/join/stop sequence of
  `make`.  Errors are `RuntimeError` values as raised by the code.
* `Step` — a small-step interleaving semantics of the whole run: the
  producer (main thread), the single writer thread and the shared
  `queue.Queue` (items plus unfinished-task count) and `Stats` counters.
  `Reachable` is the set of states of one run; `RunInv` is the inductive
  invariant relating counters, queue content and writer phase.
-/

/-! ### Monitor (`monitor_worker`) -/

/-- State carried by `monitor_worker` across iterations: the previously
sampled totals and the previous sample time. -/
structure MonState where
  last_written : Nat
  last_enqueued : Nat
  last_time : ℚ
deriving DecidableEq

/-- The values `monitor_worker` reads in one iteration: the counter
snapshot taken under `stats.lock`, `time.time()` and `qsize()`. -/
structure MonObs where
  enq : Nat
  wr : Nat
  now : ℚ
  qsize : Nat
deriving DecidableEq

/-- Backlog trend label printed by the monitor. -/
inductive Trend where
  | growing
  | draining
  | stable
deriving DecidableEq

/-- Content of one `[STATS]` line. -/
structure MonReport where
  enq : Nat
  wr : Nat
  qsize : Nat
  backlog : Int
  trend : Trend
  enq_rate : ℚ
  wr_rate : ℚ
deriving DecidableEq

/-- `dt = max(now - last_time, 0.001)` from `monitor_worker`. -/
def monDt (st : MonState) (o : MonObs) : ℚ :=
  max (o.now - st.last_time) (1 / 1000)

/-- `write_rate = (wr - last_written) / dt`. -/
def monWriteRate (st : MonState) (o : MonObs) : ℚ :=
  ((o.wr : ℚ) - (st.last_written : ℚ)) / monDt st o

/-- `enqueue_rate = (enq - last_enqueued) / dt`. -/
def monEnqueueRate (st : MonState) (o : MonObs) : ℚ :=
  ((o.enq : ℚ) - (st.last_enqueued : ℚ)) / monDt st o

/-- `backlog_delta = (enq - last_enqueued) - (wr - last_written)`. -/
def monBacklogDelta (st : MonState) (o : MonObs) : Int :=
  ((o.enq : Int) - (st.last_enqueued : Int)) - ((o.wr : Int) - (st.last_written : Int))

/-- Trend classification of `monitor_worker`. -/
def monTrend (st : MonState) (o : MonObs) : Trend :=
  if 0 < monBacklogDelta st o then .growing
  else if monBacklogDelta st o < 0 then .draining
  else .stable

/-- One iteration of the `monitor_worker` loop body (after `sleep(2)`):
either the report is suppressed (`continue`, leaving the `last_*` state
untouched) or exactly one `[STATS]` report is produced and the state is
updated. -/
def monitorStep (st : MonState) (o : MonObs) : MonState × Option MonReport :=
  if monEnqueueRate st o = 0 ∧ monWriteRate st o = 0 ∧ o.qsize = 0 then
    (st, none)
  else
    ({ last_written := o.wr, last_enqueued := o.enq, last_time := o.now },
     some { enq := o.enq, wr := o.wr, qsize := o.qsize,
            backlog := (o.enq : Int) - (o.wr : Int),
            trend := monTrend st o,
            enq_rate := monEnqueueRate st o,
            wr_rate := monWriteRate st o })

/-! ### Writer (`db_writer_worker`) as an event trace -/

/-- One outcome of the writer's interaction with the queue:
`stopEmpty` is the loop condition turning false (stop set and queue
empty); `timeout` is `queue.Empty` from `get(timeout=0.5)`; `item`
carries the record together with the `time.time()` value read after
processing it and the `qsize`/`enqueued` values read for a report. -/
inductive WObs where
  | stopEmpty
  | timeout (t : ℚ)
  | item (e : Nat) (t : ℚ) (qsize : Nat) (enq : Nat)
deriving DecidableEq

/-- Events emitted by `db_writer_worker`. -/
inductive WEv where
  | initDb
  | insert (e : Nat)
  | incWritten
  | taskDone
  | report (t : ℚ) (wr : Nat) (qsize : Nat) (backlog : Int)
  | closeDb
  | printClosed
deriving DecidableEq

/-- How the writer loop ended: still running (schedule exhausted),
normal exit, or exit via an exception from `insert_entry`. -/
inductive WExit where
  | running
  | okExit
  | errExit
deriving DecidableEq

/-- The writer loop of `db_writer_worker`, with written-count `w` and
`last_report` time `lr`.  `insert_entry` success is given by `ok`; on
failure the `finally` block still runs (`closeDb`, the closing print)
and the exception terminates the loop. -/
def writerLoop (ok : Nat → Bool) : Nat → ℚ → List WObs → List WEv × WExit
  | _, _, [] => ([], .running)
  | _, _, .stopEmpty :: _ => ([.closeDb, .printClosed], .okExit)
  | w, lr, .timeout _ :: rest => writerLoop ok w lr rest
  | w, lr, .item e t q enq :: rest =>
      if ok e then
        if 2 ≤ t - lr then
          let r := writerLoop ok (w + 1) t rest
          (.insert e :: .incWritten :: .taskDone ::
             .report t (w + 1) q ((enq : Int) - ((w + 1 : Nat) : Int)) :: r.1, r.2)
        else
          let r := writerLoop ok (w + 1) lr rest
          (.insert e :: .incWritten :: .taskDone :: r.1, r.2)
      else
        ([.insert e, .closeDb, .printClosed], .errExit)

/-- `db_writer_worker` from the top: `init_database`, `last_report`
initialised to the current time `t0`, then the loop. -/
def writerRun (ok : Nat → Bool) (t0 : ℚ) (obs : List WObs) : List WEv × WExit :=
  let r := writerLoop ok 0 t0 obs
  (.initDb :: r.1, r.2)

/-- Times of the `[DB]` report events in a writer trace. -/
def reportTimes (evs : List WEv) : List ℚ :=
  evs.filterMap fun ev =>
    match ev with
    | .report t _ _ _ => some t
    | _ => none

/-- Does a schedule entry deliver a record? -/
def isItemObs : WObs → Bool
  | .item _ _ _ _ => true
  | _ => false

/-! ### Configuration, `process_sources` and `make` -/

/-- Keys of the `SCRAPERS` registry in `make.py`. -/
def SCRAPERS : List String :=
  ["myrient", "internet_archive", "nopaystation", "mariocube"]

/-- Keys of the `PARSERS` registry in `make.py`. -/
def PARSERS : List String :=
  ["no_intro", "libretro", "gametdb", "mame", "wii_rom_set_by_ghostware"]

/-- One source descriptor from `sources.json` (the fields `process_sources`
reads). Parser flags are abstracted as numbers. -/
structure SourceD where
  scraper : String
  stype : String
  format : String
  regions : List String
  parsers : List (String × Nat)
deriving DecidableEq

/-- Errors raised by `process_sources` (the code raises `RuntimeError`). -/
inductive PyErr where
  | runtimeError (msg : String)
deriving DecidableEq

/-- `get_scraper`: `SCRAPERS.get(name)` — the module (its `scrape`
behaviour, abstracted by `impl`) when the key is present, else `None`. -/
def getScraper (impl : String → SourceD → String → Bool → List Nat) (name : String) :
    Option (SourceD → String → Bool → List Nat) :=
  if SCRAPERS.contains name then some (impl name) else none

/-- `get_parser`: `PARSERS.get(name)` with parse behaviour `impl`. -/
def getParser (impl : String → List Nat → Nat → List Nat) (name : String) :
    Option (List Nat → Nat → List Nat) :=
  if PARSERS.contains name then some (impl name) else none

/-- The parser chain of one source: look each parser name up in turn and
thread the record sequence through it; an unknown name raises
`RuntimeError` at that point. -/
def applyParsers (pimpl : String → List Nat → Nat → List Nat) :
    List (String × Nat) → List Nat → Except PyErr (List Nat)
  | [], es => .ok es
  | (pname, flags) :: rest, es =>
      match getParser pimpl pname with
      | some p => applyParsers pimpl rest (p es flags)
      | none => .error (.runtimeError ("Parser " ++ pname ++ " not found"))

/-- Processing of one source in `process_sources`: resolve the scraper,
scrape, run the parser chain; the records to enqueue on success. -/
def processSource (simpl : String → SourceD → String → Bool → List Nat)
    (pimpl : String → List Nat → Nat → List Nat)
    (uc : Bool) (platform : String) (src : SourceD) : Except PyErr (List Nat) :=
  match getScraper simpl src.scraper with
  | some sc => applyParsers pimpl src.parsers (sc src platform uc)
  | none => .error (.runtimeError ("Scraper " ++ src.scraper ++ " not found"))

/-- The inner loop of `process_sources` over one platform's source list:
returns the records enqueued (in order) and `ok` or the first error.  A
failing source enqueues nothing of its own, and stops the loop. -/
def processList (simpl : String → SourceD → String → Bool → List Nat)
    (pimpl : String → List Nat → Nat → List Nat)
    (uc : Bool) (platform : String) : List SourceD → List Nat × Except PyErr Unit
  | [] => ([], .ok ())
  | src :: rest =>
      match processSource simpl pimpl uc platform src with
      | .ok es =>
          let r := processList simpl pimpl uc platform rest
          (es ++ r.1, r.2)
      | .error err => ([], .error err)

/-- `process_sources` over all platforms, in configured order. -/
def processSources (simpl : String → SourceD → String → Bool → List Nat)
    (pimpl : String → List Nat → Nat → List Nat)
    (uc : Bool) : List (String × List SourceD) → List Nat × Except PyErr Unit
  | [] => ([], .ok ())
  | (platform, srcs) :: rest =>
      match processList simpl pimpl uc platform srcs with
      | (es, .ok _) =>
          let r := processSources simpl pimpl uc rest
          (es ++ r.1, r.2)
      | (es, .error err) => (es, .error err)

/-- Events of `make`, in program order. -/
inductive MkEv where
  | startWriter
  | startMonitor
  | putRecord (e : Nat)
  | incEnqueued
  | joinQueue
  | setStop
  | joinWriter
  | joinMonitor
  | moveStatic
deriving DecidableEq

/-- The producer's enqueue events: `put` then the counter increment,
for each record in order. -/
def producerEvents (es : List Nat) : List MkEv :=
  es.flatMap fun e => [.putRecord e, .incEnqueued]

/-- The `make` function as an event trace plus outcome: start the writer
thread, start the monitor thread, run `process_sources` under `try`, and
in `finally` join the queue, set the stop event and join the writer
thread (the monitor thread is never joined); the `process_sources`
outcome is re-raised (or `make` returns normally) only after that
cleanup. -/
def makeRun (simpl : String → SourceD → String → Bool → List Nat)
    (pimpl : String → List Nat → Nat → List Nat)
    (uc : Bool) (sources : List (String × List SourceD)) :
    List MkEv × Except PyErr Unit :=
  let p := processSources simpl pimpl uc sources
  ([.startWriter, .startMonitor] ++ producerEvents p.1 ++
     [.joinQueue, .setStop, .joinWriter], p.2)

/-- Does a run outcome consist of a raised `RuntimeError`? -/
def raisedRuntimeError : Except PyErr Unit → Bool
  | .error (.runtimeError _) => true
  | .ok _ => false

/-- Is a `make` event one of the producer's enqueue events? -/
def isEnqueueEv : MkEv → Bool
  | .putRecord _ => true
  | .incEnqueued => true
  | _ => false

/-- Some source descriptor of the configuration references a scraper
name or a parser name that is not in the registries. -/
def hasUnknownName (sources : List (String × List SourceD)) : Prop :=
  ∃ pl ∈ sources, ∃ src ∈ pl.2,
    SCRAPERS.contains src.scraper = false ∨
      ∃ pf ∈ src.parsers, PARSERS.contains pf.1 = false

/-- A concrete well-formed source (known scraper, no parsers). -/
def srcGood : SourceD :=
  { scraper := "myrient", stype := "rom", format := "zip", regions := [], parsers := [] }

/-- A concrete source referencing an unregistered scraper name. -/
def srcBad : SourceD :=
  { scraper := "bogus", stype := "rom", format := "zip", regions := [], parsers := [] }

/-- A configuration whose first source is fine and whose second source
references an unknown scraper. -/
def cfgBad : List (String × List SourceD) := [("psx", [srcGood, srcBad])]

/-- A configuration with a single well-formed source. -/
def cfgGood : List (String × List SourceD) := [("psx", [srcGood])]

/-- A scrape behaviour yielding one record (the number 7) per source. -/
def scrapeOne : String → SourceD → String → Bool → List Nat := fun _ _ _ _ => [7]

/-- A parse behaviour passing records through unchanged. -/
def parseId : String → List Nat → Nat → List Nat := fun _ es _ => es

/-! ### Interleaving semantics of one `make` run

The producer runs on the main thread; the writer is the single consumer
thread; they share the bounded `queue.Queue` (its item list and its
unfinished-task count, here `puts - acked`) and the `Stats` counters.
The monitor only reads shared state and is omitted from the state
space.  Scrape/parse collaborators are abstracted by the list of
records the producer loop will enqueue, `insert_entry` by a success
predicate on records. -/

/-- The records the producer will enqueue (the output of the
scrape/parse chain, in order) and the behaviour of
`db_manager.insert_entry` on each record. -/
structure PipelineEnv where
  entries : List Nat
  insertOk : Nat → Bool

/-- Where the main thread is: still in the producer loop of
`process_sources` (with the records not yet put, and whether a
returned `put` still awaits its `stats.enqueued` increment), or at one
of the `finally` steps of `make` (`entry_queue.join()`,
`stop_event.set()`, `writer_thread.join()`), or returned. -/
inductive MainPhase where
  | producing (pending : List Nat) (needInc : Bool)
  | joiningQueue
  | stopping
  | joiningWriter
  | done
deriving DecidableEq

/-- Where the writer thread is inside `db_writer_worker`: before
`init_database`, at the loop condition, at `get`, holding a dequeued
record at one of `insert_entry` / the `written` increment /
`task_done`, in the `finally` block (normal or exceptional), or
terminated (normally or with the insert exception). -/
inductive WriterPhase where
  | start
  | check
  | getting
  | inserting (e : Nat)
  | incrementing (e : Nat)
  | acking (e : Nat)
  | closingOk
  | closingErr
  | deadOk
  | deadErr
deriving DecidableEq

/-- A global state of the run: queue content (FIFO), total `put` and
`task_done` counts (the queue's unfinished-task count is
`puts - acked`), the two `Stats` counters, the stop event, and the two
thread positions. -/
structure SysState where
  items : List Nat
  puts : Nat
  acked : Nat
  enqueued : Nat
  written : Nat
  stop : Bool
  main : MainPhase
  writer : WriterPhase
deriving DecidableEq

/-- Queue capacity: `queue.Queue(maxsize=2000)` in `make`. -/
def queueCapacity : Nat := 2000

/-- The interleaved small-step relation of one run.  Producer steps:
`put` (blocking while the queue holds `queueCapacity` items), the
`enqueued` increment right after `put` returns, leaving the loop,
`entry_queue.join()` (enabled once every put has been acknowledged),
`stop_event.set()`, `writer_thread.join()` (enabled once the writer
thread has terminated, normally or not).  Writer steps follow
`db_writer_worker`: `init_database`, the loop condition (exit only when
stop is set and the queue is empty), `get` returning the FIFO head or
timing out on an empty queue, `insert_entry` succeeding or raising,
the `written` increment, `task_done`, and `close_database` on both
exit paths. -/
inductive Step (env : PipelineEnv) : SysState → SysState → Prop where
  | prodPut (s : SysState) (e : Nat) (rest : List Nat)
      (hm : s.main = .producing (e :: rest) false)
      (hc : s.items.length < queueCapacity) :
      Step env s { s with items := s.items ++ [e], puts := s.puts + 1,
                          main := .producing (e :: rest) true }
  | prodInc (s : SysState) (e : Nat) (rest : List Nat)
      (hm : s.main = .producing (e :: rest) true) :
      Step env s { s with enqueued := s.enqueued + 1, main := .producing rest false }
  | prodFinish (s : SysState) (hm : s.main = .producing [] false) :
      Step env s { s with main := .joiningQueue }
  | qJoin (s : SysState) (hm : s.main = .joiningQueue) (hj : s.acked = s.puts) :
      Step env s { s with main := .stopping }
  | setStop (s : SysState) (hm : s.main = .stopping) :
      Step env s { s with stop := true, main := .joiningWriter }
  | wJoin (s : SysState) (hm : s.main = .joiningWriter)
      (hw : s.writer = .deadOk ∨ s.writer = .deadErr) :
      Step env s { s with main := .done }
  | wInit (s : SysState) (hw : s.writer = .start) :
      Step env s { s with writer := .check }
  | wCheckExit (s : SysState) (hw : s.writer = .check) (hs : s.stop = true)
      (he : s.items = []) :
      Step env s { s with writer := .closingOk }
  | wCheckCont (s : SysState) (hw : s.writer = .check)
      (hc : s.stop = false ∨ s.items ≠ []) :
      Step env s { s with writer := .getting }
  | wGetItem (s : SysState) (e : Nat) (rest : List Nat) (hw : s.writer = .getting)
      (hi : s.items = e :: rest) :
      Step env s { s with items := rest, writer := .inserting e }
  | wGetTimeout (s : SysState) (hw : s.writer = .getting) (hi : s.items = []) :
      Step env s { s with writer := .check }
  | wInsertOk (s : SysState) (e : Nat) (hw : s.writer = .inserting e)
      (hok : env.insertOk e = true) :
      Step env s { s with writer := .incrementing e }
  | wInsertFail (s : SysState) (e : Nat) (hw : s.writer = .inserting e)
      (hok : env.insertOk e = false) :
      Step env s { s with writer := .closingErr }
  | wInc (s : SysState) (e : Nat) (hw : s.writer = .incrementing e) :
      Step env s { s with written := s.written + 1, writer := .acking e }
  | wAck (s : SysState) (e : Nat) (hw : s.writer = .acking e) :
      Step env s { s with acked := s.acked + 1, writer := .check }
  | wCloseOk (s : SysState) (hw : s.writer = .closingOk) :
      Step env s { s with writer := .deadOk }
  | wCloseErr (s : SysState) (hw : s.writer = .closingErr) :
      Step env s { s with writer := .deadErr }

/-- The state at the start of `make`: empty queue, zero counters, stop
clear, the producer about to enqueue `env.entries`, the writer thread
started but not yet past `init_database`. -/
def initState (env : PipelineEnv) : SysState :=
  { items := [], puts := 0, acked := 0, enqueued := 0, written := 0,
    stop := false, main := .producing env.entries false, writer := .start }

/-- States of one run of `make`. -/
def Reachable (env : PipelineEnv) (s : SysState) : Prop :=
  Relation.ReflTransGen (Step env) (initState env) s

/-- Records the producer still has to put on the queue. -/
def mainPending : MainPhase → List Nat
  | .producing p _ => p
  | _ => []

/-- Did a `put` return whose `enqueued`-increment is still pending? -/
def mainNeedInc : MainPhase → Bool
  | .producing _ b => b
  | _ => false

/-- Number of records the writer has dequeued but not (and, in the two
error phases, never will have) acknowledged with `task_done`. -/
def wHold : WriterPhase → Nat
  | .inserting _ => 1
  | .incrementing _ => 1
  | .acking _ => 1
  | .closingErr => 1
  | .deadErr => 1
  | _ => 0

/-- The record the writer currently holds, if its phase names one. -/
def wEntry : WriterPhase → Option Nat
  | .inserting e => some e
  | .incrementing e => some e
  | .acking e => some e
  | _ => none

/-- Is the writer between the `written` increment and `task_done`? -/
def wAcking : WriterPhase → Bool
  | .acking _ => true
  | _ => false

/-- Inductive invariant of the run.  With `L := env.entries` and
`n := L.length`: the pending records are the suffix of `L` not yet put
and `puts` counts the prefix already put; `enqueued` trails `puts` by
exactly the pending increment; the queue's unfinished count
`puts - acked` equals queue content plus the record the writer holds;
`written` and `acked` differ only by the pending `task_done`; the stop
event is set exactly from `stop_event.set()` on; `entry_queue.join()`
returned only with every put acknowledged; the queue holds the records
between positions `acked + wHold` and `puts` of `L` in order; the
record the writer holds is `L[acked]`; every fully acknowledged record
and every record past `insert_entry` inserted successfully; and the
writer is in an error phase only because `insert_entry` raised on
`L[acked]`. -/
structure RunInv (env : PipelineEnv) (s : SysState) : Prop where
  pendSuffix : ∀ p b, s.main = .producing p b →
    env.entries.drop (env.entries.length - p.length) = p
  pendNeTrue : ∀ p, s.main = .producing p true → p ≠ []
  putsPend : s.puts + (mainPending s.main).length =
    env.entries.length + (if mainNeedInc s.main then 1 else 0)
  enqEq : s.puts = s.enqueued + (if mainNeedInc s.main then 1 else 0)
  ackEq : s.acked + wHold s.writer + s.items.length = s.puts
  writtenEq : s.written = s.acked + (if wAcking s.writer then 1 else 0)
  stopIff : s.stop = true ↔ (s.main = .joiningWriter ∨ s.main = .done)
  ackedDone : (s.main = .stopping ∨ s.main = .joiningWriter ∨ s.main = .done) →
    s.acked = env.entries.length
  itemsSeg : env.entries.take s.puts =
    env.entries.take (s.puts - s.items.length) ++ s.items
  heldIdx : ∀ e, wEntry s.writer = some e → env.entries[s.acked]? = some e
  heldOk : ∀ e, s.writer = .incrementing e ∨ s.writer = .acking e →
    env.insertOk e = true
  ackedOk : ∀ e ∈ env.entries.take s.acked, env.insertOk e = true
  deadBad : s.writer = .closingErr ∨ s.writer = .deadErr →
    ∃ e, env.entries[s.acked]? = some e ∧ env.insertOk e = false

/-- Run environment for a clean one-record run: the record `7` produced
by `cfgGood` with `scrapeOne`, every `insert_entry` call succeeding. -/
def envC1 : PipelineEnv := { entries := [7], insertOk := fun _ => true }

/-- Final state of the clean one-record run. -/
def sC1done : SysState :=
  { items := [], puts := 1, acked := 1, enqueued := 1, written := 1,
    stop := true, main := .done, writer := .deadOk }

/-- Intermediate state of the one-record run right after `put` returned
and before the `stats.enqueued` increment. -/
def sAfterPut : SysState :=
  { items := [7], puts := 1, acked := 0, enqueued := 0, written := 0,
    stop := false, main := .producing [7] true, writer := .start }

/-- Run environment where every `insert_entry` call raises. -/
def envFail : PipelineEnv := { entries := [4], insertOk := fun _ => false }

/-- State of the `envFail` run after the writer died on the failed
insert: the sole record was put (and counted) but never acknowledged,
and the main thread is blocked in `entry_queue.join()`. -/
def sFailDead : SysState :=
  { items := [], puts := 1, acked := 0, enqueued := 1, written := 0,
    stop := false, main := .joiningQueue, writer := .deadErr }

/-- Run environment of spec scenario 4: three records, `insert_entry`
raising on the third. -/
def envC3 : PipelineEnv := { entries := [1, 2, 3], insertOk := fun e => e != 3 }

/-- State of the `envC3` run after the writer persisted records 1 and 2
and died on record 3, with the main thread blocked in
`entry_queue.join()`. -/
def sC3dead : SysState :=
  { items := [], puts := 3, acked := 2, enqueued := 3, written := 2,
    stop := false, main := .joiningQueue, writer := .deadErr }

/-! ### Lemmas about the writer trace -/

/-- On any exit (normal or via an `insert_entry` exception) the events of
the writer loop end with exactly the `finally` block — `closeDb` then the
closing print — and `closeDb`/`initDb` occur nowhere earlier. -/
theorem writerLoop_close (ok : Nat → Bool) (w : Nat) (lr : ℚ) (obs : List WObs)
    (h : (writerLoop ok w lr obs).2 ≠ .running) :
    ∃ pre, (writerLoop ok w lr obs).1 = pre ++ [.closeDb, .printClosed] ∧
      ∀ ev ∈ pre, ev ≠ WEv.closeDb ∧ ev ≠ WEv.initDb := by
  induction obs generalizing w lr with
  | nil => simp [writerLoop] at h
  | cons o rest ih =>
    cases o with
    | stopEmpty =>
      refine ⟨[], ?_, ?_⟩ <;> simp [writerLoop]
    | timeout t => simpa [writerLoop] using ih w lr (by simpa [writerLoop] using h)
    | item e t q enq =>
      by_cases hok : ok e = true
      · by_cases ht : (2 : ℚ) ≤ t - lr
        · have h' : (writerLoop ok (w + 1) t rest).2 ≠ .running := by
            simpa [writerLoop, hok, ht] using h
          obtain ⟨pre, hpre, hmem⟩ := ih (w + 1) t h'
          refine ⟨.insert e :: .incWritten :: .taskDone ::
              .report t (w + 1) q ((enq : Int) - ((w + 1 : Nat) : Int)) :: pre, ?_, ?_⟩
          · simp [writerLoop, hok, ht, hpre]
          · intro ev hev
            simp only [List.mem_cons] at hev
            rcases hev with h1 | h1 | h1 | h1 | h1
            · simp [h1]
            · simp [h1]
            · simp [h1]
            · simp [h1]
            · exact hmem ev h1
        · have h' : (writerLoop ok (w + 1) lr rest).2 ≠ .running := by
            simpa [writerLoop, hok, ht] using h
          obtain ⟨pre, hpre, hmem⟩ := ih (w + 1) lr h'
          refine ⟨.insert e :: .incWritten :: .taskDone :: pre, ?_, ?_⟩
          · simp [writerLoop, hok, ht, hpre]
          · intro ev hev
            simp only [List.mem_cons] at hev
            rcases hev with h1 | h1 | h1 | h1
            · simp [h1]
            · simp [h1]
            · simp [h1]
            · exact hmem ev h1
      · have hok' : ok e = false := by simpa using hok
        refine ⟨[.insert e], ?_, ?_⟩ <;> simp [writerLoop, hok']

/-- C4: in every terminating execution of `db_writer_worker` — whether
the loop exits normally (stop requested and queue empty) or via an
exception from `insert_entry` — `close_database` is invoked exactly
once, after `init_database` and after every insert the writer
performed: the trace is `initDb`, then a prefix free of `closeDb` and
`initDb` (which contains all the insert events), then `closeDb` and the
final closing print. -/
theorem c4_close_exactly_once (ok : Nat → Bool) (t0 : ℚ) (obs : List WObs)
    (h : (writerRun ok t0 obs).2 ≠ .running) :
    (writerRun ok t0 obs).1.count WEv.closeDb = 1 ∧
      ∃ pre, (writerRun ok t0 obs).1 = .initDb :: (pre ++ [.closeDb, .printClosed]) ∧
        ∀ ev ∈ pre, ev ≠ WEv.closeDb ∧ ev ≠ WEv.initDb := by
  have h' : (writerLoop ok 0 t0 obs).2 ≠ .running := h
  obtain ⟨pre, hpre, hmem⟩ := writerLoop_close ok 0 t0 obs h'
  constructor
  · show (WEv.initDb :: (writerLoop ok 0 t0 obs).1).count WEv.closeDb = 1
    rw [hpre]
    rw [List.count_cons, List.count_append]
    have hzero : pre.count WEv.closeDb = 0 := by
      rw [List.count_eq_zero]
      intro hc
      exact (hmem _ hc).1 rfl
    simp [hzero]
  · exact ⟨pre, by simpa [writerRun] using congrArg (List.cons WEv.initDb) hpre, hmem⟩

/-- Witness for C4: a concrete schedule (one successfully inserted item,
then a stop) yields a trace with exactly one `closeDb` event. -/
theorem c4_close_exactly_once_witness :
    (writerRun (fun _ => true) 0 [.item 7 1 0 1, .stopEmpty]).1.count WEv.closeDb = 1 :=
  (c4_close_exactly_once (fun _ => true) 0 [.item 7 1 0 1, .stopEmpty]
    (by norm_num [writerRun, writerLoop]; exact fun h => WExit.noConfusion h)).1

/-- Consecutive `[DB]` reports of the writer loop are at least 2 seconds
apart, and the first comes at least 2 seconds after `last_report` was
initialised; if the schedule contains no dequeued item, no report is
emitted at all. -/
theorem writerLoop_report_chain (ok : Nat → Bool) (w : Nat) (lr : ℚ) (obs : List WObs) :
    List.Chain (fun a b => a + 2 ≤ b) lr (reportTimes (writerLoop ok w lr obs).1) := by
  induction obs generalizing w lr with
  | nil => simp [writerLoop, reportTimes]
  | cons o rest ih =>
    cases o with
    | stopEmpty => simp [writerLoop, reportTimes]
    | timeout t => simpa [writerLoop] using ih w lr
    | item e t q enq =>
      by_cases hok : ok e = true
      · by_cases ht : (2 : ℚ) ≤ t - lr
        · have : reportTimes (writerLoop ok w lr (.item e t q enq :: rest)).1 =
              t :: reportTimes (writerLoop ok (w + 1) t rest).1 := by
            simp [writerLoop, hok, ht, reportTimes]
          rw [this]
          exact List.Chain.cons (by linarith) (ih (w + 1) t)
        · have : reportTimes (writerLoop ok w lr (.item e t q enq :: rest)).1 =
              reportTimes (writerLoop ok (w + 1) lr rest).1 := by
            simp [writerLoop, hok, ht, reportTimes]
          rw [this]
          exact ih (w + 1) lr
      · have hok' : ok e = false := by simpa using hok
        simp [writerLoop, hok', reportTimes]

/-- A schedule with no delivered record makes the writer loop emit no
`[DB]` report, whatever its internal written count and report clock. -/
theorem writerLoop_no_items (ok : Nat → Bool) (obs : List WObs) :
    (∀ o ∈ obs, isItemObs o = false) →
      ∀ (w : Nat) (lr : ℚ), reportTimes (writerLoop ok w lr obs).1 = [] := by
  induction obs with
  | nil => intro _ w lr; simp [writerLoop, reportTimes]
  | cons o rest ih =>
    intro hno w lr
    cases o with
    | stopEmpty => simp [writerLoop, reportTimes]
    | timeout t =>
      simpa [writerLoop] using ih (fun o ho => hno o (List.mem_cons_of_mem _ ho)) w lr
    | item e t q enq =>
      have h1 : isItemObs (WObs.item e t q enq) = false := hno _ (List.mem_cons_self _ _)
      simp [isItemObs] at h1

/-- C9 (amended): consecutive `[DB]` reports of `db_writer_worker` are at
least 2 seconds apart (the first at least 2 s after the writer starts),
but a report is emitted only immediately after a record was persisted
and acknowledged — on a schedule that delivers no record (only `get`
timeouts and the final stop) the writer emits no `[DB]` report at all,
however long it stays alive. -/
theorem c9_report_spacing (ok : Nat → Bool) (t0 : ℚ) (obs : List WObs) :
    List.Chain (fun a b => a + 2 ≤ b) t0 (reportTimes (writerRun ok t0 obs).1) ∧
      ((∀ o ∈ obs, isItemObs o = false) → reportTimes (writerRun ok t0 obs).1 = []) := by
  constructor
  · have : reportTimes (writerRun ok t0 obs).1 = reportTimes (writerLoop ok 0 t0 obs).1 := by
      simp [writerRun, reportTimes]
    rw [this]
    exact writerLoop_report_chain ok 0 t0 obs
  · intro hno
    simpa [writerRun, reportTimes] using writerLoop_no_items ok obs hno 0 t0

/-- Witness for C9 (amended): on a schedule of timeouts only, the writer
emits no report. -/
theorem c9_report_spacing_witness :
    reportTimes (writerRun (fun _ => true) 0 [.timeout 1, .timeout 3, .stopEmpty]).1 = [] :=
  (c9_report_spacing (fun _ => true) 0 [.timeout 1, .timeout 3, .stopEmpty]).2 (by decide)

/-- Counterexample to C9 as stated: a writer that stays alive from time
0 to time 10 (twenty `get` timeouts of 0.5 s each, with the loop ending
normally only at time 10) emits no `[DB]` report at all, although the
claim requires a report roughly every 2 seconds while the loop is
alive. -/
theorem c9_cex :
    reportTimes (writerRun (fun _ => true) 0
      [.timeout 1, .timeout 2, .timeout 3, .timeout 4, .timeout 5,
       .timeout 6, .timeout 7, .timeout 8, .timeout 9, .timeout 10, .stopEmpty]).1 = [] ∧
    (writerRun (fun _ => true) 0
      [.timeout 1, .timeout 2, .timeout 3, .timeout 4, .timeout 5,
       .timeout 6, .timeout 7, .timeout 8, .timeout 9, .timeout 10, .stopEmpty]).2 = .okExit := by
  constructor <;> rfl

/-! ### Monitor theorems -/

/-- C10: the elapsed-time denominator used by `monitor_worker` is
`max(now - last_time, 0.001)`, so it is at least `1/1000` and in
particular strictly positive whatever the clock readings are — the rate
divisions are never divisions by zero. -/
theorem c10_dt_positive (st : MonState) (o : MonObs) :
    (1 / 1000 : ℚ) ≤ monDt st o ∧ 0 < monDt st o := by
  have h : (1 / 1000 : ℚ) ≤ monDt st o := le_max_right _ _
  exact ⟨h, lt_of_lt_of_le (by norm_num) h⟩

/-- The rate computed by the monitor is zero exactly when the sampled
total did not move since the previous sample (the denominator is never
zero). -/
theorem monRate_eq_zero_iff (st : MonState) (o : MonObs) (a b : Nat) :
    ((a : ℚ) - (b : ℚ)) / monDt st o = 0 ↔ a = b := by
  have hdt : 0 < monDt st o := (c10_dt_positive st o).2
  rw [div_eq_zero_iff]
  constructor
  · rintro (h | h)
    · have : (a : ℚ) = (b : ℚ) := by linarith
      exact_mod_cast this
    · exact absurd h (ne_of_gt hdt)
  · intro h
    left
    rw [h]
    ring

/-- C8: the monitor suppresses its `[STATS]` report exactly in the
iterations where the computed enqueue rate is zero, the computed write
rate is zero and the queue depth is zero (equivalently: neither counter
moved and the queue is empty); in every other iteration it emits exactly
one report carrying the sampled totals, the queue depth, the signed
backlog, the trend label and both rates. -/
theorem c8_idle_suppression (st : MonState) (o : MonObs) :
    ((monitorStep st o).2 = none ↔
       monEnqueueRate st o = 0 ∧ monWriteRate st o = 0 ∧ o.qsize = 0) ∧
    ((monitorStep st o).2 = none ↔
       o.enq = st.last_enqueued ∧ o.wr = st.last_written ∧ o.qsize = 0) ∧
    ((monitorStep st o).2 = none ∨
      (monitorStep st o).2 = some
        { enq := o.enq,
          wr := o.wr,
          qsize := o.qsize,
          backlog := (o.enq : Int) - (o.wr : Int),
          trend := monTrend st o,
          enq_rate := monEnqueueRate st o,
          wr_rate := monWriteRate st o }) := by
  have hiff : (monitorStep st o).2 = none ↔
      monEnqueueRate st o = 0 ∧ monWriteRate st o = 0 ∧ o.qsize = 0 := by
    by_cases h : monEnqueueRate st o = 0 ∧ monWriteRate st o = 0 ∧ o.qsize = 0
    · simp [monitorStep, h]
    · simp [monitorStep, h]
  refine ⟨hiff, ?_, ?_⟩
  · rw [hiff]
    rw [show monEnqueueRate st o = ((o.enq : ℚ) - (st.last_enqueued : ℚ)) / monDt st o from rfl]
    rw [show monWriteRate st o = ((o.wr : ℚ) - (st.last_written : ℚ)) / monDt st o from rfl]
    rw [monRate_eq_zero_iff, monRate_eq_zero_iff]
  · by_cases h : monEnqueueRate st o = 0 ∧ monWriteRate st o = 0 ∧ o.qsize = 0
    · left
      simp [monitorStep, h]
    · right
      simp [monitorStep, h]

/-! ### `process_sources` / `make` theorems -/

/-- Every event the producer loop emits is a `put` or an
`enqueued`-counter increment. -/
theorem producerEvents_all (es : List Nat) :
    (producerEvents es).all isEnqueueEv = true := by
  rw [List.all_eq_true]
  intro ev hev
  rw [producerEvents, List.mem_flatMap] at hev
  obtain ⟨e, _, hin⟩ := hev
  rcases List.mem_cons.mp hin with rfl | hin'
  · rfl
  · rcases List.mem_cons.mp hin' with rfl | hin''
    · rfl
    · simp at hin''

/-- C6: on every run — whether `process_sources` completes or raises —
`make` performs the shutdown sequence in program order: all producer
events happen after the writer and monitor threads are started, then the
work queue is joined, then the stop event is set, then the writer thread
is joined; the monitor thread is never joined; and the outcome of `make`
(normal return or re-raised exception) is exactly the outcome of
`process_sources`, established only after the cleanup events. -/
theorem c6_shutdown_sequence (simpl : String → SourceD → String → Bool → List Nat)
    (pimpl : String → List Nat → Nat → List Nat)
    (uc : Bool) (sources : List (String × List SourceD)) :
    (makeRun simpl pimpl uc sources).1 =
      [.startWriter, .startMonitor] ++
        producerEvents (processSources simpl pimpl uc sources).1 ++
        [.joinQueue, .setStop, .joinWriter] ∧
    (producerEvents (processSources simpl pimpl uc sources).1).all isEnqueueEv = true ∧
    MkEv.joinMonitor ∉ (makeRun simpl pimpl uc sources).1 ∧
    (makeRun simpl pimpl uc sources).2 = (processSources simpl pimpl uc sources).2 := by
  refine ⟨rfl, producerEvents_all _, ?_, rfl⟩
  intro hmem
  rw [show (makeRun simpl pimpl uc sources).1 =
      [.startWriter, .startMonitor] ++
        producerEvents (processSources simpl pimpl uc sources).1 ++
        [.joinQueue, .setStop, .joinWriter] from rfl] at hmem
  rw [List.mem_append, List.mem_append] at hmem
  rcases hmem with (h | h) | h
  · simp at h
  · have := List.all_eq_true.mp (producerEvents_all
      (processSources simpl pimpl uc sources).1) _ h
    simp [isEnqueueEv] at this
  · simp at h

/-- If some parser name of the chain is not in the `PARSERS` registry,
the parser loop of `process_sources` raises a `RuntimeError`. -/
theorem applyParsers_unknown (pimpl : String → List Nat → Nat → List Nat)
    (ps : List (String × Nat)) :
    (∃ pf ∈ ps, PARSERS.contains pf.1 = false) →
      ∀ es, ∃ msg, applyParsers pimpl ps es = .error (.runtimeError msg) := by
  induction ps with
  | nil => intro h; simp at h
  | cons hd tl ih =>
    intro h es
    obtain ⟨pname, flags⟩ := hd
    by_cases hc : PARSERS.contains pname = true
    · have hmem : pname ∈ PARSERS := by simpa using hc
      have h' : ∃ pf ∈ tl, PARSERS.contains pf.1 = false := by
        obtain ⟨pf, hpf, hbad⟩ := h
        rcases List.mem_cons.mp hpf with rfl | hpf'
        · rw [hc] at hbad; cases hbad
        · exact ⟨pf, hpf', hbad⟩
      obtain ⟨msg, hmsg⟩ := ih h' (pimpl pname es flags)
      refine ⟨msg, ?_⟩
      simpa [applyParsers, getParser, hmem] using hmsg
    · have hnot : pname ∉ PARSERS := by simpa using hc
      refine ⟨"Parser " ++ pname ++ " not found", ?_⟩
      simp [applyParsers, getParser, hnot]

/-- If a source references an unregistered scraper name or an
unregistered parser name, processing that source raises a
`RuntimeError` (at the registry lookup, as `process_sources` does). -/
theorem processSource_unknown (simpl : String → SourceD → String → Bool → List Nat)
    (pimpl : String → List Nat → Nat → List Nat) (uc : Bool) (platform : String)
    (src : SourceD)
    (h : SCRAPERS.contains src.scraper = false ∨
      ∃ pf ∈ src.parsers, PARSERS.contains pf.1 = false) :
    ∃ msg, processSource simpl pimpl uc platform src = .error (.runtimeError msg) := by
  rcases h with h | h
  · have hnot : src.scraper ∉ SCRAPERS := by simpa using h
    refine ⟨"Scraper " ++ src.scraper ++ " not found", ?_⟩
    simp [processSource, getScraper, hnot]
  · by_cases hc : SCRAPERS.contains src.scraper = true
    · have hmem : src.scraper ∈ SCRAPERS := by simpa using hc
      obtain ⟨msg, hmsg⟩ := applyParsers_unknown pimpl src.parsers h
        (simpl src.scraper src platform uc)
      refine ⟨msg, ?_⟩
      simpa [processSource, getScraper, hmem] using hmsg
    · have hnot : src.scraper ∉ SCRAPERS := by simpa using hc
      refine ⟨"Scraper " ++ src.scraper ++ " not found", ?_⟩
      simp [processSource, getScraper, hnot]

/-- If some source of one platform's list has an unknown scraper or
parser name, the per-platform loop ends in a `RuntimeError`. -/
theorem processList_unknown (simpl : String → SourceD → String → Bool → List Nat)
    (pimpl : String → List Nat → Nat → List Nat) (uc : Bool) (platform : String)
    (l : List SourceD) :
    (∃ src ∈ l, SCRAPERS.contains src.scraper = false ∨
        ∃ pf ∈ src.parsers, PARSERS.contains pf.1 = false) →
      ∃ msg, (processList simpl pimpl uc platform l).2 = .error (.runtimeError msg) := by
  induction l with
  | nil => intro h; simp at h
  | cons src tl ih =>
    intro h
    cases hps : processSource simpl pimpl uc platform src with
    | ok es =>
      have h' : ∃ s ∈ tl, SCRAPERS.contains s.scraper = false ∨
          ∃ pf ∈ s.parsers, PARSERS.contains pf.1 = false := by
        obtain ⟨s, hmem, hbad⟩ := h
        rcases List.mem_cons.mp hmem with rfl | hmem'
        · obtain ⟨msg, hmsg⟩ := processSource_unknown simpl pimpl uc platform s hbad
          rw [hps] at hmsg
          cases hmsg
        · exact ⟨s, hmem', hbad⟩
      obtain ⟨msg, hmsg⟩ := ih h'
      refine ⟨msg, ?_⟩
      simp [processList, hps, hmsg]
    | error err =>
      obtain ⟨msg⟩ := err
      refine ⟨msg, ?_⟩
      simp [processList, hps]

/-- If any source of the configuration has an unknown scraper or parser
name, `process_sources` raises a `RuntimeError`. -/
theorem processSources_unknown (simpl : String → SourceD → String → Bool → List Nat)
    (pimpl : String → List Nat → Nat → List Nat) (uc : Bool)
    (sources : List (String × List SourceD)) :
    hasUnknownName sources →
      ∃ msg, (processSources simpl pimpl uc sources).2 = .error (.runtimeError msg) := by
  induction sources with
  | nil => intro h; simp [hasUnknownName] at h
  | cons pl tl ih =>
    intro h
    obtain ⟨platform, srcs⟩ := pl
    rcases hpair : processList simpl pimpl uc platform srcs with ⟨es, res⟩
    cases res with
    | ok u =>
      have h' : hasUnknownName tl := by
        obtain ⟨p, hmem, hbad⟩ := h
        rcases List.mem_cons.mp hmem with rfl | hmem'
        · obtain ⟨msg, hmsg⟩ := processList_unknown simpl pimpl uc platform srcs hbad
          rw [hpair] at hmsg
          cases hmsg
        · exact ⟨p, hmem', hbad⟩
      obtain ⟨msg, hmsg⟩ := ih h'
      refine ⟨msg, ?_⟩
      simp [processSources, hpair, hmsg]
    | error err =>
      obtain ⟨msg⟩ := err
      refine ⟨msg, ?_⟩
      simp [processSources, hpair]

/-- C2 (amended): a Source Descriptor referencing an unregistered
scraper or parser name makes the run fail with a `RuntimeError` (there
is no ConfigurationError in the code), raised lazily from inside the
producer loop when that source is reached — by which point `make` has
already started the writer and the monitor threads. -/
theorem c2_unknown_name_runtime_error (simpl : String → SourceD → String → Bool → List Nat)
    (pimpl : String → List Nat → Nat → List Nat) (uc : Bool)
    (sources : List (String × List SourceD)) (h : hasUnknownName sources) :
    raisedRuntimeError (makeRun simpl pimpl uc sources).2 = true ∧
      (makeRun simpl pimpl uc sources).1.take 2 = [.startWriter, .startMonitor] := by
  obtain ⟨msg, hmsg⟩ := processSources_unknown simpl pimpl uc sources h
  constructor
  · have : (makeRun simpl pimpl uc sources).2 = (processSources simpl pimpl uc sources).2 := rfl
    rw [this, hmsg]
    rfl
  · rfl

/-- Witness for C2 (amended): the concrete configuration `cfgBad`
(second source references scraper name `bogus`) raises a
`RuntimeError`, with the writer and the monitor already started. -/
theorem c2_unknown_name_runtime_error_witness :
    raisedRuntimeError (makeRun scrapeOne parseId false cfgBad).2 = true ∧
      (makeRun scrapeOne parseId false cfgBad).1.take 2 = [.startWriter, .startMonitor] :=
  c2_unknown_name_runtime_error scrapeOne parseId false cfgBad
    (by refine ⟨("psx", [srcGood, srcBad]), by simp [cfgBad], srcBad, by simp, ?_⟩
        left
        rfl)

/-- Counterexample to C2 as stated: with `cfgBad` the first (valid)
source is processed and enqueues its record before the unknown name of
the second source is even looked at, so the run does not abort with
`enqueued == 0` (one record was enqueued) and does not fail before the
writer/monitor threads are started (both start events precede every
producer event); the raised error is a `RuntimeError`, not a
ConfigurationError. -/
theorem c2_cex :
    (processSources scrapeOne parseId false cfgBad).1 = [7] ∧
      (processSources scrapeOne parseId false cfgBad).2 =
        .error (.runtimeError "Scraper bogus not found") ∧
      (makeRun scrapeOne parseId false cfgBad).1 =
        [.startWriter, .startMonitor, .putRecord 7, .incEnqueued,
         .joinQueue, .setStop, .joinWriter] := by
  refine ⟨?_, ?_, ?_⟩ <;> rfl

/-! ### The run invariant -/

/-- Element extraction: a list shaped `A ++ e :: C` has `e` at index
`A.length`. -/
theorem getElem_append_cons (A : List Nat) (e : Nat) (C : List Nat) :
    (A ++ e :: C)[A.length]? = some e := by
  induction A with
  | nil => simp
  | cons a A ih => simpa using ih

/-- Taking one more element appends the element at that index. -/
theorem take_succ_of_getElem (L : List Nat) (n : Nat) (e : Nat) (h : L[n]? = some e) :
    L.take (n + 1) = L.take n ++ [e] := by
  induction L generalizing n with
  | nil => simp at h
  | cons a t ih =>
    cases n with
    | zero =>
      simp at h
      simp [h]
    | succ m =>
      simp only [List.getElem?_cons_succ] at h
      simp [List.take_succ_cons, ih m h]

/-- The head of `L.drop k` is the element of `L` at index `k`. -/
theorem drop_elem_helper (L : List Nat) (k : Nat) (e : Nat) (rest : List Nat)
    (h : L.drop k = e :: rest) : L[k]? = some e := by
  induction L generalizing k with
  | nil => simp at h
  | cons a t ih =>
    cases k with
    | zero =>
      simp at h
      simp [h.1]
    | succ m =>
      simp only [List.drop_succ_cons] at h
      simpa using ih m h

/-- The tail of `L.drop k` is `L.drop (k + 1)`. -/
theorem drop_succ_of_cons (L : List Nat) (k : Nat) (e : Nat) (rest : List Nat)
    (h : L.drop k = e :: rest) : L.drop (k + 1) = rest := by
  induction L generalizing k with
  | nil => simp at h
  | cons a t ih =>
    cases k with
    | zero =>
      simp at h
      simp [h.2]
    | succ m =>
      simp only [List.drop_succ_cons] at h
      simpa using ih m h

/-- The invariant holds in the initial state of a run. -/
theorem runInv_init (env : PipelineEnv) : RunInv env (initState env) := by
  refine ⟨?_, ?_, ?_, ?_, ?_, ?_, ?_, ?_, ?_, ?_, ?_, ?_, ?_⟩
  · intro p b hm
    simp only [initState, MainPhase.producing.injEq] at hm
    obtain ⟨rfl, rfl⟩ := hm
    simp
  · intro p hm
    simp only [initState, MainPhase.producing.injEq] at hm
    exact absurd hm.2 (by simp)
  · simp [initState, mainPending, mainNeedInc]
  · simp [initState, mainNeedInc]
  · simp [initState, wHold]
  · simp [initState, wAcking]
  · simp [initState]
  · intro hset
    rcases hset with h1 | h1 | h1 <;> simp [initState] at h1
  · simp [initState]
  · intro e he
    simp [initState, wEntry] at he
  · intro e he
    rcases he with h1 | h1 <;> simp [initState] at h1
  · simp [initState]
  · intro hbad
    rcases hbad with h1 | h1 <;> simp [initState] at h1

/-- The number of records put so far never exceeds the total number of
records of the run. -/
theorem runInv_puts_le {env : PipelineEnv} {s : SysState} (h : RunInv env s) :
    s.puts ≤ env.entries.length := by
  have hp := h.putsPend
  cases hm : s.main with
  | producing p b =>
    rw [hm] at hp
    simp only [mainPending, mainNeedInc] at hp
    cases b with
    | false => simp at hp; omega
    | true =>
      have hne : p ≠ [] := h.pendNeTrue p hm
      have hpos : 0 < p.length := List.length_pos.mpr hne
      simp at hp
      omega
  | joiningQueue => rw [hm] at hp; simp [mainPending, mainNeedInc] at hp; omega
  | stopping => rw [hm] at hp; simp [mainPending, mainNeedInc] at hp; omega
  | joiningWriter => rw [hm] at hp; simp [mainPending, mainNeedInc] at hp; omega
  | done => rw [hm] at hp; simp [mainPending, mainNeedInc] at hp; omega

/-- The invariant is preserved by every step of the run. -/
theorem runInv_step {env : PipelineEnv} {s s' : SysState}
    (h : RunInv env s) (hs : Step env s s') : RunInv env s' := by
  cases hs with
  | prodPut e rest hm hc =>
    have hp := h.putsPend
    have hen := h.enqEq
    rw [hm] at hp hen
    simp [mainPending, mainNeedInc] at hp hen
    have hseg := h.itemsSeg
    have hps := h.pendSuffix (e :: rest) false hm
    have ha := h.ackEq
    have hlen : env.entries.length - (e :: rest).length = s.puts := by
      simp only [List.length_cons]
      omega
    rw [hlen] at hps
    have hget := drop_elem_helper env.entries s.puts e rest hps
    have htake := take_succ_of_getElem env.entries s.puts e hget
    refine ⟨?_, ?_, ?_, ?_, ?_, ?_, ?_, ?_, ?_, ?_, ?_, ?_, ?_⟩
    · intro p b hpb
      rw [MainPhase.producing.injEq] at hpb
      obtain ⟨rfl, rfl⟩ := hpb
      exact h.pendSuffix _ false hm
    · intro p hpb
      rw [MainPhase.producing.injEq] at hpb
      obtain ⟨rfl, -⟩ := hpb
      simp
    · dsimp only
      simp [mainPending, mainNeedInc]
      omega
    · dsimp only
      simp [mainNeedInc]
      omega
    · dsimp only
      simp [List.length_append]
      omega
    · exact h.writtenEq
    · dsimp only
      constructor
      · intro hb
        have hx := h.stopIff.mp hb
        rw [hm] at hx
        rcases hx with h1 | h1 <;> simp at h1
      · intro hb
        rcases hb with h1 | h1 <;> simp at h1
    · intro hset
      rcases hset with h1 | h1 | h1 <;> simp at h1
    · dsimp only
      have hidx : s.puts + 1 - (s.items ++ [e]).length = s.puts - s.items.length := by
        simp only [List.length_append, List.length_singleton]
        omega
      rw [htake, hidx, hseg, List.append_assoc]
    · exact h.heldIdx
    · exact h.heldOk
    · exact h.ackedOk
    · exact h.deadBad
  | prodInc e rest hm =>
    have hp := h.putsPend
    have hen := h.enqEq
    rw [hm] at hp hen
    simp [mainPending, mainNeedInc] at hp hen
    have hps := h.pendSuffix (e :: rest) true hm
    have hlen : (env.entries.drop (env.entries.length - (e :: rest).length)).length
        = (e :: rest).length := by rw [hps]
    rw [List.length_drop] at hlen
    simp only [List.length_cons] at hlen hps
    refine ⟨?_, ?_, ?_, ?_, ?_, ?_, ?_, ?_, ?_, ?_, ?_, ?_, ?_⟩
    · intro p b hpb
      rw [MainPhase.producing.injEq] at hpb
      obtain ⟨rfl, rfl⟩ := hpb
      have h1 : env.entries.length - rest.length =
          (env.entries.length - (rest.length + 1)) + 1 := by omega
      rw [h1]
      exact drop_succ_of_cons _ _ _ _ hps
    · intro p hpb
      rw [MainPhase.producing.injEq] at hpb
      exact absurd hpb.2 (by simp)
    · dsimp only
      simp [mainPending, mainNeedInc]
      omega
    · dsimp only
      simp [mainNeedInc]
      omega
    · exact h.ackEq
    · exact h.writtenEq
    · dsimp only
      constructor
      · intro hb
        have hx := h.stopIff.mp hb
        rw [hm] at hx
        rcases hx with h1 | h1 <;> simp at h1
      · intro hb
        rcases hb with h1 | h1 <;> simp at h1
    · intro hset
      rcases hset with h1 | h1 | h1 <;> simp at h1
    · exact h.itemsSeg
    · exact h.heldIdx
    · exact h.heldOk
    · exact h.ackedOk
    · exact h.deadBad
  | prodFinish hm =>
    have hp := h.putsPend
    have hen := h.enqEq
    rw [hm] at hp hen
    simp [mainPending, mainNeedInc] at hp hen
    refine ⟨?_, ?_, ?_, ?_, ?_, ?_, ?_, ?_, ?_, ?_, ?_, ?_, ?_⟩
    · intro p b hpb
      simp at hpb
    · intro p hpb
      simp at hpb
    · dsimp only
      simp [mainPending, mainNeedInc]
      omega
    · dsimp only
      simp [mainNeedInc]
      omega
    · exact h.ackEq
    · exact h.writtenEq
    · dsimp only
      constructor
      · intro hb
        have hx := h.stopIff.mp hb
        rw [hm] at hx
        rcases hx with h1 | h1 <;> simp at h1
      · intro hb
        rcases hb with h1 | h1 <;> simp at h1
    · intro hset
      rcases hset with h1 | h1 | h1 <;> simp at h1
    · exact h.itemsSeg
    · exact h.heldIdx
    · exact h.heldOk
    · exact h.ackedOk
    · exact h.deadBad
  | qJoin hm hj =>
    have hp := h.putsPend
    rw [hm] at hp
    simp [mainPending, mainNeedInc] at hp
    refine ⟨?_, ?_, ?_, ?_, ?_, ?_, ?_, ?_, ?_, ?_, ?_, ?_, ?_⟩
    · intro p b hpb
      simp at hpb
    · intro p hpb
      simp at hpb
    · dsimp only
      have hen := h.enqEq
      rw [hm] at *
      simp [mainPending, mainNeedInc]
      omega
    · dsimp only
      have hen := h.enqEq
      rw [hm] at hen
      simp only [mainNeedInc] at hen ⊢
      omega
    · exact h.ackEq
    · exact h.writtenEq
    · dsimp only
      constructor
      · intro hb
        have hx := h.stopIff.mp hb
        rw [hm] at hx
        rcases hx with h1 | h1 <;> simp at h1
      · intro hb
        rcases hb with h1 | h1 <;> simp at h1
    · intro _
      dsimp only
      omega
    · exact h.itemsSeg
    · exact h.heldIdx
    · exact h.heldOk
    · exact h.ackedOk
    · exact h.deadBad
  | setStop hm =>
    have hp := h.putsPend
    have hen := h.enqEq
    rw [hm] at hp hen
    simp [mainPending, mainNeedInc] at hp hen
    refine ⟨?_, ?_, ?_, ?_, ?_, ?_, ?_, ?_, ?_, ?_, ?_, ?_, ?_⟩
    · intro p b hpb
      simp at hpb
    · intro p hpb
      simp at hpb
    · dsimp only
      simp [mainPending, mainNeedInc]
      omega
    · dsimp only
      simp [mainNeedInc]
      omega
    · exact h.ackEq
    · exact h.writtenEq
    · dsimp only
      simp
    · intro _
      exact h.ackedDone (Or.inl hm)
    · exact h.itemsSeg
    · exact h.heldIdx
    · exact h.heldOk
    · exact h.ackedOk
    · exact h.deadBad
  | wJoin hm hw =>
    have hp := h.putsPend
    have hen := h.enqEq
    rw [hm] at hp hen
    simp [mainPending, mainNeedInc] at hp hen
    refine ⟨?_, ?_, ?_, ?_, ?_, ?_, ?_, ?_, ?_, ?_, ?_, ?_, ?_⟩
    · intro p b hpb
      simp at hpb
    · intro p hpb
      simp at hpb
    · dsimp only
      simp [mainPending, mainNeedInc]
      omega
    · dsimp only
      simp [mainNeedInc]
      omega
    · exact h.ackEq
    · exact h.writtenEq
    · dsimp only
      have hst : s.stop = true := h.stopIff.mpr (Or.inl hm)
      simp [hst]
    · intro _
      exact h.ackedDone (Or.inr (Or.inl hm))
    · exact h.itemsSeg
    · exact h.heldIdx
    · exact h.heldOk
    · exact h.ackedOk
    · exact h.deadBad
  | wInit hw =>
    have ha := h.ackEq
    have hwr := h.writtenEq
    rw [hw] at ha hwr
    refine ⟨h.pendSuffix, h.pendNeTrue, h.putsPend, h.enqEq, ?_, ?_, h.stopIff,
      h.ackedDone, h.itemsSeg, ?_, ?_, h.ackedOk, ?_⟩
    · dsimp only
      simpa [wHold] using ha
    · dsimp only
      simpa [wAcking] using hwr
    · intro e he
      simp [wEntry] at he
    · intro e he
      rcases he with h1 | h1 <;> simp at h1
    · intro hbad
      rcases hbad with h1 | h1 <;> simp at h1
  | wCheckExit hw hst he =>
    have ha := h.ackEq
    have hwr := h.writtenEq
    rw [hw] at ha hwr
    refine ⟨h.pendSuffix, h.pendNeTrue, h.putsPend, h.enqEq, ?_, ?_, h.stopIff,
      h.ackedDone, h.itemsSeg, ?_, ?_, h.ackedOk, ?_⟩
    · dsimp only
      simpa [wHold] using ha
    · dsimp only
      simpa [wAcking] using hwr
    · intro e he'
      simp [wEntry] at he'
    · intro e he'
      rcases he' with h1 | h1 <;> simp at h1
    · intro hbad
      rcases hbad with h1 | h1 <;> simp at h1
  | wCheckCont hw hc =>
    have ha := h.ackEq
    have hwr := h.writtenEq
    rw [hw] at ha hwr
    refine ⟨h.pendSuffix, h.pendNeTrue, h.putsPend, h.enqEq, ?_, ?_, h.stopIff,
      h.ackedDone, h.itemsSeg, ?_, ?_, h.ackedOk, ?_⟩
    · dsimp only
      simpa [wHold] using ha
    · dsimp only
      simpa [wAcking] using hwr
    · intro e he
      simp [wEntry] at he
    · intro e he
      rcases he with h1 | h1 <;> simp at h1
    · intro hbad
      rcases hbad with h1 | h1 <;> simp at h1
  | wGetTimeout hw hi =>
    have ha := h.ackEq
    have hwr := h.writtenEq
    rw [hw] at ha hwr
    refine ⟨h.pendSuffix, h.pendNeTrue, h.putsPend, h.enqEq, ?_, ?_, h.stopIff,
      h.ackedDone, h.itemsSeg, ?_, ?_, h.ackedOk, ?_⟩
    · dsimp only
      simpa [wHold] using ha
    · dsimp only
      simpa [wAcking] using hwr
    · intro e he
      simp [wEntry] at he
    · intro e he
      rcases he with h1 | h1 <;> simp at h1
    · intro hbad
      rcases hbad with h1 | h1 <;> simp at h1
  | wGetItem e rest hw hi =>
    have ha := h.ackEq
    have hwr := h.writtenEq
    rw [hw] at ha hwr
    rw [hi] at ha
    simp [wHold] at ha
    have hseg := h.itemsSeg
    rw [hi] at hseg
    simp only [List.length_cons] at hseg
    have hple := runInv_puts_le h
    have hdle : s.puts - (rest.length + 1) ≤ env.entries.length := by omega
    have hLd : (env.entries.take (s.puts - (rest.length + 1))).length
        = s.puts - (rest.length + 1) := by
      rw [List.length_take]
      omega
    have hL : env.entries = env.entries.take (s.puts - (rest.length + 1)) ++
        e :: (rest ++ env.entries.drop s.puts) := by
      conv_lhs => rw [← List.take_append_drop s.puts env.entries]
      rw [hseg]
      simp [List.append_assoc]
    have hget : env.entries[s.puts - (rest.length + 1)]? = some e := by
      have h2 := getElem_append_cons (env.entries.take (s.puts - (rest.length + 1))) e
        (rest ++ env.entries.drop s.puts)
      rw [hLd] at h2
      rw [hL]
      exact h2
    have htake := take_succ_of_getElem env.entries (s.puts - (rest.length + 1)) e hget
    have hackd : s.acked = s.puts - (rest.length + 1) := by omega
    refine ⟨h.pendSuffix, h.pendNeTrue, h.putsPend, h.enqEq, ?_, ?_, h.stopIff,
      h.ackedDone, ?_, ?_, ?_, h.ackedOk, ?_⟩
    · dsimp only
      simp [wHold]
      omega
    · dsimp only
      simpa [wAcking] using hwr
    · dsimp only
      have hidx : s.puts - rest.length = (s.puts - (rest.length + 1)) + 1 := by omega
      rw [hidx, htake, hseg, List.append_assoc]
      simp
    · intro e' he'
      simp only [wEntry, Option.some.injEq] at he'
      subst he'
      rw [hackd]
      exact hget
    · intro e' he'
      rcases he' with h1 | h1 <;> simp at h1
    · intro hbad
      rcases hbad with h1 | h1 <;> simp at h1
  | wInsertOk e hw hok =>
    have ha := h.ackEq
    have hwr := h.writtenEq
    rw [hw] at ha hwr
    refine ⟨h.pendSuffix, h.pendNeTrue, h.putsPend, h.enqEq, ?_, ?_, h.stopIff,
      h.ackedDone, h.itemsSeg, ?_, ?_, h.ackedOk, ?_⟩
    · dsimp only
      simpa [wHold] using ha
    · dsimp only
      simpa [wAcking] using hwr
    · intro e' he'
      simp only [wEntry, Option.some.injEq] at he'
      subst he'
      exact h.heldIdx _ (by rw [hw]; rfl)
    · intro e' he'
      rcases he' with h1 | h1
      · rw [WriterPhase.incrementing.injEq] at h1
        subst h1
        exact hok
      · simp at h1
    · intro hbad
      rcases hbad with h1 | h1 <;> simp at h1
  | wInsertFail e hw hok =>
    have ha := h.ackEq
    have hwr := h.writtenEq
    rw [hw] at ha hwr
    refine ⟨h.pendSuffix, h.pendNeTrue, h.putsPend, h.enqEq, ?_, ?_, h.stopIff,
      h.ackedDone, h.itemsSeg, ?_, ?_, h.ackedOk, ?_⟩
    · dsimp only
      simpa [wHold] using ha
    · dsimp only
      simpa [wAcking] using hwr
    · intro e' he'
      simp [wEntry] at he'
    · intro e' he'
      rcases he' with h1 | h1 <;> simp at h1
    · intro _
      exact ⟨e, h.heldIdx _ (by rw [hw]; rfl), hok⟩
  | wInc e hw =>
    have ha := h.ackEq
    have hwr := h.writtenEq
    rw [hw] at ha hwr
    refine ⟨h.pendSuffix, h.pendNeTrue, h.putsPend, h.enqEq, ?_, ?_, h.stopIff,
      h.ackedDone, h.itemsSeg, ?_, ?_, h.ackedOk, ?_⟩
    · dsimp only
      simpa [wHold] using ha
    · dsimp only
      simp [wAcking] at hwr ⊢
      omega
    · intro e' he'
      simp only [wEntry, Option.some.injEq] at he'
      subst he'
      exact h.heldIdx _ (by rw [hw]; rfl)
    · intro e' he'
      rcases he' with h1 | h1
      · simp at h1
      · rw [WriterPhase.acking.injEq] at h1
        subst h1
        exact h.heldOk _ (Or.inl hw)
    · intro hbad
      rcases hbad with h1 | h1 <;> simp at h1
  | wAck e hw =>
    have ha := h.ackEq
    have hwr := h.writtenEq
    rw [hw] at ha hwr
    simp [wHold] at ha
    simp [wAcking] at hwr
    have hheld : env.entries[s.acked]? = some e := h.heldIdx _ (by rw [hw]; rfl)
    have hok : env.insertOk e = true := h.heldOk _ (Or.inr hw)
    have htake := take_succ_of_getElem env.entries s.acked e hheld
    have hple := runInv_puts_le h
    refine ⟨h.pendSuffix, h.pendNeTrue, h.putsPend, h.enqEq, ?_, ?_, h.stopIff,
      ?_, h.itemsSeg, ?_, ?_, ?_, ?_⟩
    · dsimp only
      simp [wHold]
      omega
    · dsimp only
      simp [wAcking]
      omega
    · intro hset
      have := h.ackedDone hset
      omega
    · intro e' he'
      simp [wEntry] at he'
    · intro e' he'
      rcases he' with h1 | h1 <;> simp at h1
    · dsimp only
      intro x hx
      rw [htake] at hx
      rcases List.mem_append.mp hx with h1 | h1
      · exact h.ackedOk x h1
      · rw [List.mem_singleton] at h1
        subst h1
        exact hok
    · intro hbad
      rcases hbad with h1 | h1 <;> simp at h1
  | wCloseOk hw =>
    have ha := h.ackEq
    have hwr := h.writtenEq
    rw [hw] at ha hwr
    refine ⟨h.pendSuffix, h.pendNeTrue, h.putsPend, h.enqEq, ?_, ?_, h.stopIff,
      h.ackedDone, h.itemsSeg, ?_, ?_, h.ackedOk, ?_⟩
    · dsimp only
      simpa [wHold] using ha
    · dsimp only
      simpa [wAcking] using hwr
    · intro e he
      simp [wEntry] at he
    · intro e he
      rcases he with h1 | h1 <;> simp at h1
    · intro hbad
      rcases hbad with h1 | h1 <;> simp at h1
  | wCloseErr hw =>
    have ha := h.ackEq
    have hwr := h.writtenEq
    rw [hw] at ha hwr
    refine ⟨h.pendSuffix, h.pendNeTrue, h.putsPend, h.enqEq, ?_, ?_, h.stopIff,
      h.ackedDone, h.itemsSeg, ?_, ?_, h.ackedOk, ?_⟩
    · dsimp only
      simpa [wHold] using ha
    · dsimp only
      simpa [wAcking] using hwr
    · intro e he
      simp [wEntry] at he
    · intro e he
      rcases he with h1 | h1 <;> simp at h1
    · intro _
      exact h.deadBad (Or.inl hw)

/-- Every reachable state of a run satisfies the invariant. -/
theorem runInv_reachable {env : PipelineEnv} {s : SysState} (h : Reachable env s) :
    RunInv env s := by
  induction h with
  | refl => exact runInv_init env
  | tail hr hstep ih => exact runInv_step ih hstep

/-- With the writer dead from an `insert_entry` exception, the main
thread has not passed `entry_queue.join()` (and so has not set the stop
event, joined the writer, or returned from `make`). -/
theorem deadErr_main_not_past_join {env : PipelineEnv} {s : SysState}
    (h : RunInv env s) (hw : s.writer = .deadErr) :
    s.main ≠ .stopping ∧ s.main ≠ .joiningWriter ∧ s.main ≠ .done := by
  have ha := h.ackEq
  rw [hw] at ha
  simp [wHold] at ha
  have hple := runInv_puts_le h
  refine ⟨?_, ?_, ?_⟩
  · intro hm
    have hd := h.ackedDone (Or.inl hm)
    omega
  · intro hm
    have hd := h.ackedDone (Or.inr (Or.inl hm))
    omega
  · intro hm
    have hd := h.ackedDone (Or.inr (Or.inr hm))
    omega

/-- A dead-with-exception writer stays dead, and no step changes the
acknowledge count or the written counter any more. -/
theorem deadErr_step {env : PipelineEnv} {s s' : SysState}
    (hw : s.writer = .deadErr) (hstep : Step env s s') :
    s'.writer = .deadErr ∧ s'.acked = s.acked ∧ s'.written = s.written := by
  cases hstep with
  | prodPut e rest hm hc => exact ⟨hw, rfl, rfl⟩
  | prodInc e rest hm => exact ⟨hw, rfl, rfl⟩
  | prodFinish hm => exact ⟨hw, rfl, rfl⟩
  | qJoin hm hj => exact ⟨hw, rfl, rfl⟩
  | setStop hm => exact ⟨hw, rfl, rfl⟩
  | wJoin hm hw' => exact ⟨hw, rfl, rfl⟩
  | wInit hw' => rw [hw] at hw'; simp at hw'
  | wCheckExit hw' hst he => rw [hw] at hw'; simp at hw'
  | wCheckCont hw' hc => rw [hw] at hw'; simp at hw'
  | wGetItem e rest hw' hi => rw [hw] at hw'; simp at hw'
  | wGetTimeout hw' hi => rw [hw] at hw'; simp at hw'
  | wInsertOk e hw' hok => rw [hw] at hw'; simp at hw'
  | wInsertFail e hw' hok => rw [hw] at hw'; simp at hw'
  | wInc e hw' => rw [hw] at hw'; simp at hw'
  | wAck e hw' => rw [hw] at hw'; simp at hw'
  | wCloseOk hw' => rw [hw] at hw'; simp at hw'
  | wCloseErr hw' => rw [hw] at hw'; simp at hw'

/-- Along every continuation from a state whose writer died with the
insert exception, the invariant still holds, the writer stays dead and
`acked`/`written` are frozen. -/
theorem deadErr_persists {env : PipelineEnv} {s s' : SysState}
    (h : RunInv env s) (hw : s.writer = .deadErr)
    (hsteps : Relation.ReflTransGen (Step env) s s') :
    RunInv env s' ∧ s'.writer = .deadErr ∧ s'.acked = s.acked ∧ s'.written = s.written := by
  induction hsteps with
  | refl => exact ⟨h, hw, rfl, rfl⟩
  | tail hr hstep ih =>
    obtain ⟨hi, hwd, hac, hwr⟩ := ih
    obtain ⟨hwd', hac', hwr'⟩ := deadErr_step hwd hstep
    exact ⟨runInv_step hi hstep, hwd', hac'.trans hac, hwr'.trans hwr⟩

/-- C1 (conservation): for every configuration of sources whose
scrape/parse calls all succeed (so `process_sources` returns the full
record list without error) and whose `insert_entry` calls all succeed,
in every state in which `make` has returned, the `enqueued` counter
equals the `written` counter, the work queue is empty, and every record
of the run was written. -/
theorem c1_conservation (simpl : String → SourceD → String → Bool → List Nat)
    (pimpl : String → List Nat → Nat → List Nat) (uc : Bool)
    (sources : List (String × List SourceD)) (env : PipelineEnv) (s : SysState)
    (hent : env.entries = (processSources simpl pimpl uc sources).1)
    (hok : (processSources simpl pimpl uc sources).2 = .ok ())
    (hins : ∀ e ∈ env.entries, env.insertOk e = true)
    (hr : Reachable env s) (hd : s.main = .done) :
    s.enqueued = s.written ∧ s.items = [] ∧ s.written = env.entries.length := by
  have h := runInv_reachable hr
  have hack := h.ackedDone (Or.inr (Or.inr hd))
  have hp := h.putsPend
  have hen := h.enqEq
  rw [hd] at hp hen
  simp [mainPending, mainNeedInc] at hp hen
  have ha := h.ackEq
  have hwr := h.writtenEq
  have hhold : wHold s.writer + s.items.length = 0 := by omega
  have hwa : (if wAcking s.writer then 1 else 0) = 0 := by
    cases hww : s.writer <;>
      first
        | (simp [wAcking]; done)
        | (rw [hww] at hhold; simp [wHold] at hhold)
  refine ⟨by omega, ?_, by omega⟩
  have : s.items.length = 0 := by omega
  exact List.length_eq_zero.mp this

/-- The clean one-record run reaches its final state. -/
theorem reach_sC1done : Reachable envC1 sC1done := by
  have h0 : Reachable envC1 (initState envC1) := Relation.ReflTransGen.refl
  have h1 : Reachable envC1
      (⟨[7], 1, 0, 0, 0, false, .producing [7] true, .start⟩ : SysState) :=
    h0.tail (Step.prodPut _ 7 [] rfl (by decide))
  have h2 : Reachable envC1
      (⟨[7], 1, 0, 1, 0, false, .producing [] false, .start⟩ : SysState) :=
    h1.tail (Step.prodInc _ 7 [] rfl)
  have h3 : Reachable envC1
      (⟨[7], 1, 0, 1, 0, false, .joiningQueue, .start⟩ : SysState) :=
    h2.tail (Step.prodFinish _ rfl)
  have h4 : Reachable envC1
      (⟨[7], 1, 0, 1, 0, false, .joiningQueue, .check⟩ : SysState) :=
    h3.tail (Step.wInit _ rfl)
  have h5 : Reachable envC1
      (⟨[7], 1, 0, 1, 0, false, .joiningQueue, .getting⟩ : SysState) :=
    h4.tail (Step.wCheckCont _ rfl (Or.inl rfl))
  have h6 : Reachable envC1
      (⟨[], 1, 0, 1, 0, false, .joiningQueue, .inserting 7⟩ : SysState) :=
    h5.tail (Step.wGetItem _ 7 [] rfl rfl)
  have h7 : Reachable envC1
      (⟨[], 1, 0, 1, 0, false, .joiningQueue, .incrementing 7⟩ : SysState) :=
    h6.tail (Step.wInsertOk _ 7 rfl rfl)
  have h8 : Reachable envC1
      (⟨[], 1, 0, 1, 1, false, .joiningQueue, .acking 7⟩ : SysState) :=
    h7.tail (Step.wInc _ 7 rfl)
  have h9 : Reachable envC1
      (⟨[], 1, 1, 1, 1, false, .joiningQueue, .check⟩ : SysState) :=
    h8.tail (Step.wAck _ 7 rfl)
  have h10 : Reachable envC1
      (⟨[], 1, 1, 1, 1, false, .stopping, .check⟩ : SysState) :=
    h9.tail (Step.qJoin _ rfl rfl)
  have h11 : Reachable envC1
      (⟨[], 1, 1, 1, 1, true, .joiningWriter, .check⟩ : SysState) :=
    h10.tail (Step.setStop _ rfl)
  have h12 : Reachable envC1
      (⟨[], 1, 1, 1, 1, true, .joiningWriter, .closingOk⟩ : SysState) :=
    h11.tail (Step.wCheckExit _ rfl rfl rfl)
  have h13 : Reachable envC1
      (⟨[], 1, 1, 1, 1, true, .joiningWriter, .deadOk⟩ : SysState) :=
    h12.tail (Step.wCloseOk _ rfl)
  exact h13.tail (Step.wJoin _ rfl (Or.inl rfl))

/-- Witness for C1: the one-record run through `cfgGood` completes with
`enqueued = written = 1` and an empty queue. -/
theorem c1_conservation_witness :
    sC1done.enqueued = sC1done.written ∧ sC1done.items = [] ∧
      sC1done.written = envC1.entries.length :=
  c1_conservation scrapeOne parseId false cfgGood envC1 sC1done rfl rfl (by decide)
    reach_sC1done rfl

/-- C7: in every reachable state of every run, the `enqueued` counter
is at most the number of records the queue has accepted, and it is
exactly that number except in the instant between a returned `put` and
its increment — the counter is bumped only after `put` returns. -/
theorem c7_enqueued_after_put (env : PipelineEnv) (s : SysState) (hr : Reachable env s) :
    s.enqueued ≤ s.puts ∧
      s.puts = s.enqueued + (if mainNeedInc s.main then 1 else 0) := by
  have h := runInv_reachable hr
  have he := h.enqEq
  exact ⟨by omega, he⟩

/-- The one-record run reaches the state between `put` and the
`enqueued` increment. -/
theorem reach_sAfterPut : Reachable envC1 sAfterPut :=
  Relation.ReflTransGen.tail Relation.ReflTransGen.refl
    (Step.prodPut (initState envC1) 7 [] rfl (by decide))

/-- Witness for C7: right after the first `put` returned, one record is
accepted and the counter still reads zero — `enqueued ≤ puts` with the
pending increment accounting for the difference. -/
theorem c7_enqueued_after_put_witness :
    sAfterPut.enqueued ≤ sAfterPut.puts ∧
      sAfterPut.puts = sAfterPut.enqueued +
        (if mainNeedInc sAfterPut.main then 1 else 0) :=
  c7_enqueued_after_put envC1 sAfterPut reach_sAfterPut

/-- C5: if `db_manager.insert_entry` raises for a dequeued record, the
writer dies without incrementing `written` and without calling
`task_done()` for that record, so in every continuation of the run the
queue's unfinished-task count `puts - acked` stays strictly positive,
`written` and the acknowledge count never move again, and the main
thread's `entry_queue.join()` can never return — the run never reaches
`stop_event.set()`, `writer_thread.join()` or the return of `make`. -/
theorem c5_failed_insert_wedges_join (env : PipelineEnv) (s : SysState)
    (hr : Reachable env s) (hw : s.writer = .deadErr) (s' : SysState)
    (hsteps : Relation.ReflTransGen (Step env) s s') :
    s'.writer = .deadErr ∧ 0 < s'.puts - s'.acked ∧ s'.written = s.written ∧
      s'.acked = s.acked ∧ s'.main ≠ .stopping ∧ s'.main ≠ .joiningWriter ∧
      s'.main ≠ .done := by
  have h := runInv_reachable hr
  obtain ⟨hi, hwd, hac, hwr⟩ := deadErr_persists h hw hsteps
  have ha := hi.ackEq
  rw [hwd] at ha
  simp [wHold] at ha
  obtain ⟨h1, h2, h3⟩ := deadErr_main_not_past_join hi hwd
  exact ⟨hwd, by omega, hwr, hac, h1, h2, h3⟩

/-- The all-inserts-fail run reaches the wedged state. -/
theorem reach_sFailDead : Reachable envFail sFailDead := by
  have h0 : Reachable envFail (initState envFail) := Relation.ReflTransGen.refl
  have h1 : Reachable envFail
      (⟨[4], 1, 0, 0, 0, false, .producing [4] true, .start⟩ : SysState) :=
    h0.tail (Step.prodPut _ 4 [] rfl (by decide))
  have h2 : Reachable envFail
      (⟨[4], 1, 0, 1, 0, false, .producing [] false, .start⟩ : SysState) :=
    h1.tail (Step.prodInc _ 4 [] rfl)
  have h3 : Reachable envFail
      (⟨[4], 1, 0, 1, 0, false, .joiningQueue, .start⟩ : SysState) :=
    h2.tail (Step.prodFinish _ rfl)
  have h4 : Reachable envFail
      (⟨[4], 1, 0, 1, 0, false, .joiningQueue, .check⟩ : SysState) :=
    h3.tail (Step.wInit _ rfl)
  have h5 : Reachable envFail
      (⟨[4], 1, 0, 1, 0, false, .joiningQueue, .getting⟩ : SysState) :=
    h4.tail (Step.wCheckCont _ rfl (Or.inl rfl))
  have h6 : Reachable envFail
      (⟨[], 1, 0, 1, 0, false, .joiningQueue, .inserting 4⟩ : SysState) :=
    h5.tail (Step.wGetItem _ 4 [] rfl rfl)
  have h7 : Reachable envFail
      (⟨[], 1, 0, 1, 0, false, .joiningQueue, .closingErr⟩ : SysState) :=
    h6.tail (Step.wInsertFail _ 4 rfl rfl)
  exact h7.tail (Step.wCloseErr _ rfl)

/-- Witness for C5: in the concrete run whose single insert fails, the
wedged state keeps an unfinished count of one, written frozen at zero,
and the main thread stuck before the shutdown steps. -/
theorem c5_failed_insert_wedges_join_witness :
    sFailDead.writer = .deadErr ∧ 0 < sFailDead.puts - sFailDead.acked ∧
      sFailDead.written = sFailDead.written ∧ sFailDead.acked = sFailDead.acked ∧
      sFailDead.main ≠ .stopping ∧ sFailDead.main ≠ .joiningWriter ∧
      sFailDead.main ≠ .done :=
  c5_failed_insert_wedges_join envFail sFailDead reach_sFailDead rfl sFailDead
    Relation.ReflTransGen.refl

/-- Counterexample to C3 as stated: in spec scenario 4 (three records,
`insert_entry` raising on the third) the claim says the exception
surfaces to the caller of `make` after cleanup completes — but no state
of that run ever has `make` returned: the exception dies with the
writer thread and `make` blocks forever in `entry_queue.join()`, so
nothing ever surfaces to `make`'s caller. -/
theorem c3_cex : ¬ ∃ s : SysState, Reachable envC3 s ∧ s.main = .done := by
  rintro ⟨s, hr, hd⟩
  have h := runInv_reachable hr
  have hack := h.ackedDone (Or.inr (Or.inr hd))
  have hmem : 3 ∈ envC3.entries.take s.acked := by
    rw [hack]
    decide
  have hbad := h.ackedOk 3 hmem
  simp [envC3] at hbad

/-- C3 (amended): when `insert_entry` raises on the third record of the
`envC3` run, the exception terminates the writer after its `finally`
block released the connection, with `written = 2` (the records
persisted before the failure); but the exception does not surface to
the caller of `make` — in every continuation the run never reaches
`make`'s return point, and `written` stays 2. -/
theorem c3_failure_terminates_writer_only (s : SysState)
    (hr : Reachable envC3 s) (hw : s.writer = .deadErr) (s' : SysState)
    (hsteps : Relation.ReflTransGen (Step envC3) s s') :
    s.written = 2 ∧ s'.main ≠ .done ∧ s'.written = 2 := by
  have h := runInv_reachable hr
  obtain ⟨e, hge, hbad⟩ := h.deadBad (Or.inr hw)
  have hwr := h.writtenEq
  rw [hw] at hwr
  simp [wAcking] at hwr
  have ha := h.ackEq
  rw [hw] at ha
  simp [wHold] at ha
  have hple := runInv_puts_le h
  have hlen3 : envC3.entries.length = 3 := rfl
  have hcase : s.acked = 0 ∨ s.acked = 1 ∨ s.acked = 2 := by omega
  have hacked : s.acked = 2 := by
    rcases hcase with h0 | h0 | h0 <;> rw [h0] at hge
    · have he1 : e = 1 := by
        have : (envC3.entries[0]? : Option Nat) = some 1 := rfl
        rw [this] at hge
        exact (Option.some.injEq _ _).mp hge.symm
      rw [he1] at hbad
      simp [envC3] at hbad
    · have he2 : e = 2 := by
        have : (envC3.entries[1]? : Option Nat) = some 2 := rfl
        rw [this] at hge
        exact (Option.some.injEq _ _).mp hge.symm
      rw [he2] at hbad
      simp [envC3] at hbad
    · exact h0
  have hwritten : s.written = 2 := by omega
  obtain ⟨hi, hwd, hac, hwr'⟩ := deadErr_persists h hw hsteps
  obtain ⟨-, -, h3⟩ := deadErr_main_not_past_join hi hwd
  exact ⟨hwritten, h3, by omega⟩

/-- The scenario-4 run reaches the wedged state with two records
persisted. -/
theorem reach_sC3dead : Reachable envC3 sC3dead := by
  have h0 : Reachable envC3 (initState envC3) := Relation.ReflTransGen.refl
  have h1 : Reachable envC3
      (⟨[1], 1, 0, 0, 0, false, .producing [1, 2, 3] true, .start⟩ : SysState) :=
    h0.tail (Step.prodPut _ 1 [2, 3] rfl (by decide))
  have h2 : Reachable envC3
      (⟨[1], 1, 0, 1, 0, false, .producing [2, 3] false, .start⟩ : SysState) :=
    h1.tail (Step.prodInc _ 1 [2, 3] rfl)
  have h3 : Reachable envC3
      (⟨[1, 2], 2, 0, 1, 0, false, .producing [2, 3] true, .start⟩ : SysState) :=
    h2.tail (Step.prodPut _ 2 [3] rfl (by decide))
  have h4 : Reachable envC3
      (⟨[1, 2], 2, 0, 2, 0, false, .producing [3] false, .start⟩ : SysState) :=
    h3.tail (Step.prodInc _ 2 [3] rfl)
  have h5 : Reachable envC3
      (⟨[1, 2, 3], 3, 0, 2, 0, false, .producing [3] true, .start⟩ : SysState) :=
    h4.tail (Step.prodPut _ 3 [] rfl (by decide))
  have h6 : Reachable envC3
      (⟨[1, 2, 3], 3, 0, 3, 0, false, .producing [] false, .start⟩ : SysState) :=
    h5.tail (Step.prodInc _ 3 [] rfl)
  have h7 : Reachable envC3
      (⟨[1, 2, 3], 3, 0, 3, 0, false, .joiningQueue, .start⟩ : SysState) :=
    h6.tail (Step.prodFinish _ rfl)
  have h8 : Reachable envC3
      (⟨[1, 2, 3], 3, 0, 3, 0, false, .joiningQueue, .check⟩ : SysState) :=
    h7.tail (Step.wInit _ rfl)
  have h9 : Reachable envC3
      (⟨[1, 2, 3], 3, 0, 3, 0, false, .joiningQueue, .getting⟩ : SysState) :=
    h8.tail (Step.wCheckCont _ rfl (Or.inl rfl))
  have h10 : Reachable envC3
      (⟨[2, 3], 3, 0, 3, 0, false, .joiningQueue, .inserting 1⟩ : SysState) :=
    h9.tail (Step.wGetItem _ 1 [2, 3] rfl rfl)
  have h11 : Reachable envC3
      (⟨[2, 3], 3, 0, 3, 0, false, .joiningQueue, .incrementing 1⟩ : SysState) :=
    h10.tail (Step.wInsertOk _ 1 rfl rfl)
  have h12 : Reachable envC3
      (⟨[2, 3], 3, 0, 3, 1, false, .joiningQueue, .acking 1⟩ : SysState) :=
    h11.tail (Step.wInc _ 1 rfl)
  have h13 : Reachable envC3
      (⟨[2, 3], 3, 1, 3, 1, false, .joiningQueue, .check⟩ : SysState) :=
    h12.tail (Step.wAck _ 1 rfl)
  have h14 : Reachable envC3
      (⟨[2, 3], 3, 1, 3, 1, false, .joiningQueue, .getting⟩ : SysState) :=
    h13.tail (Step.wCheckCont _ rfl (Or.inl rfl))
  have h15 : Reachable envC3
      (⟨[3], 3, 1, 3, 1, false, .joiningQueue, .inserting 2⟩ : SysState) :=
    h14.tail (Step.wGetItem _ 2 [3] rfl rfl)
  have h16 : Reachable envC3
      (⟨[3], 3, 1, 3, 1, false, .joiningQueue, .incrementing 2⟩ : SysState) :=
    h15.tail (Step.wInsertOk _ 2 rfl rfl)
  have h17 : Reachable envC3
      (⟨[3], 3, 1, 3, 2, false, .joiningQueue, .acking 2⟩ : SysState) :=
    h16.tail (Step.wInc _ 2 rfl)
  have h18 : Reachable envC3
      (⟨[3], 3, 2, 3, 2, false, .joiningQueue, .check⟩ : SysState) :=
    h17.tail (Step.wAck _ 2 rfl)
  have h19 : Reachable envC3
      (⟨[3], 3, 2, 3, 2, false, .joiningQueue, .getting⟩ : SysState) :=
    h18.tail (Step.wCheckCont _ rfl (Or.inl rfl))
  have h20 : Reachable envC3
      (⟨[], 3, 2, 3, 2, false, .joiningQueue, .inserting 3⟩ : SysState) :=
    h19.tail (Step.wGetItem _ 3 [] rfl rfl)
  have h21 : Reachable envC3
      (⟨[], 3, 2, 3, 2, false, .joiningQueue, .closingErr⟩ : SysState) :=
    h20.tail (Step.wInsertFail _ 3 rfl rfl)
  exact h21.tail (Step.wCloseErr _ rfl)

/-- Witness for C3 (amended): the scenario-4 run reaches the state
where the writer died on the third record with `written = 2` and `make`
not returned. -/
theorem c3_failure_terminates_writer_only_witness :
    sC3dead.written = 2 ∧ sC3dead.main ≠ .done ∧ sC3dead.written = 2 :=
  c3_failure_terminates_writer_only sC3dead reach_sC3dead rfl sC3dead
    Relation.ReflTransGen.refl
